import Mathlib

/-
Verification of the Aura study-assistant backend core: content chunking,
topic clustering, title deduplication, quiz scoring and status transitions,
the spaced-repetition review scheduler, quiz question generation and
parsing, and the chat provider fallback.  Programs are shallowly embedded:
JavaScript numbers are modelled as rationals (reals for the clustering
cosine computation), fallible or external calls as explicit parameters,
and mutable state as explicit state passing.
-/

/-! ## Content Chunker -/

/-- Modelled from the spec: the Content Chunker of spec section 4.1.  The
repository's PDFProcessor.chunkText delegates to an external text-splitting
library (langchain RecursiveCharacterTextSplitter) whose implementation is
not under src, so the chunker is modelled from the spec's words: windows of
at most windowSize characters, consecutive windows starting
windowSize - overlap characters apart, empty input yielding an empty
sequence.  The fuel argument of the worker equals the text length at the
top-level call, which suffices whenever the stride is positive. -/
def chunkTextAux (windowSize stride : ℕ) : ℕ → List Char → List (List Char)
  | 0, _ => []
  | fuel + 1, text =>
    if text.length ≤ windowSize then [text]
    else text.take windowSize :: chunkTextAux windowSize stride fuel (text.drop stride)

/-- Modelled from the spec: top-level chunking with window size and overlap
(defaults 500 and 50 in the source configuration). -/
def chunkText (windowSize overlap : ℕ) (text : List Char) : List (List Char) :=
  if text.isEmpty then []
  else chunkTextAux windowSize (windowSize - overlap) text.length text

/-- Modelled from the spec: stitching chunks back together at the overlap
boundary, i.e. the first chunk followed by each subsequent chunk's suffix
beyond the overlap region. -/
def stitch (overlap : ℕ) : List (List Char) → List Char
  | [] => []
  | c :: cs => c ++ (cs.map (fun x => x.drop overlap)).join

/-! ## Scoring and progress (backend-js/src/routes/quizRoutes.js) -/

/-- Embeds calculateScore: score is (correctCount / totalQuestions) * 10,
and 0 when totalQuestions is 0. -/
def calculateScore (correctCount totalQuestions : ℕ) : ℚ :=
  if totalQuestions = 0 then 0
  else ((correctCount : ℚ) / (totalQuestions : ℚ)) * 10

/-- Embeds determineTopicStatus: returns Completed when 7 < score, else Weak. -/
def determineTopicStatus (score : ℚ) : String :=
  if 7 < score then "Completed" else "Weak"

/-! ## Spaced-repetition scheduler (MLModelService) -/

/-- Models a JavaScript numeric argument: a finite number, NaN, or a
missing (undefined) argument. -/
inductive JSNum where
  | num (q : ℚ)
  | nan
  | undef
deriving DecidableEq

/-- Models the JavaScript expression x or-else d (written with the
double-bar operator): the fallback d is taken when x is falsy, i.e. NaN,
undefined, or zero. -/
def JSNum.orElse (x : JSNum) (d : ℚ) : ℚ :=
  match x with
  | .num q => if q = 0 then d else q
  | .nan => d
  | .undef => d

/-- Models JavaScript Math.round: round half toward positive infinity. -/
def jsRound (q : ℚ) : ℤ := ⌊q + 1 / 2⌋

/-- Embeds the validation of score inputs in predictNextReviewDays:
Math.max(0, Math.min(10, score or-else 0)). -/
def validScore (x : JSNum) : ℚ := max 0 (min 10 (x.orElse 0))

/-- Embeds the validation of attemptsCount: Math.max(1, attemptsCount
or-else 1). -/
def validAttempts (x : JSNum) : ℚ := max 1 (x.orElse 1)

/-- Embeds the validation of daysSinceLastAttempt: Math.max(0, days
or-else 0). -/
def validDays (x : JSNum) : ℚ := max 0 (x.orElse 0)

/-- Embeds the ease-factor computation of predictWithFallback:
1.3 + ((latestScore + avgScore) / 20) * 1.2. -/
def easeFactorOf (latestScore avgScore : ℚ) : ℚ :=
  13 / 10 + ((latestScore + avgScore) / 20) * (12 / 10)

/-- Embeds the base-interval branch of predictWithFallback: score bands for
the first and second attempt, and round(max(daysSinceLastAttempt, 1) *
easeFactor) afterwards. -/
def baseInterval (latestScore attemptsCount daysSince ease : ℚ) : ℚ :=
  if attemptsCount = 1 then
    (if 7 ≤ latestScore then 3 else if 5 ≤ latestScore then 2 else 1)
  else if attemptsCount = 2 then
    (if 7 ≤ latestScore then 7 else if 5 ≤ latestScore then 5 else 3)
  else ((jsRound (max daysSince 1 * ease) : ℤ) : ℚ)

/-- Embeds the performance modifier of predictWithFallback: a poor latest
score halves the interval (Math.max(1, Math.floor(interval * 0.5))), an
excellent one multiplies it by 1.3 (Math.min(60, Math.ceil(interval *
1.3))). -/
def applyModifier (latestScore interval : ℚ) : ℚ :=
  if latestScore < 5 then ((max 1 ⌊interval * (1 / 2)⌋ : ℤ) : ℚ)
  else if 9 ≤ latestScore then ((min 60 ⌈interval * (13 / 10)⌉ : ℤ) : ℚ)
  else interval

/-- Embeds MLModelService.predictWithFallback: base interval from the
attempt count and score bands, performance modifier, then the final clamp
Math.max(1, Math.min(60, Math.round(interval))). -/
def predictWithFallback (latestScore avgScore attemptsCount daysSince : ℚ) : ℤ :=
  max 1 (min 60 (jsRound (applyModifier latestScore
    (baseInterval latestScore attemptsCount daysSince (easeFactorOf latestScore avgScore)))))

/-- Embeds MLModelService.predictWithModel: the simplified tree prediction
used when a model artifact is loaded, with the final Math.max(1,
Math.round(prediction)).  The initial default assignment of 7 in the source
is dead (every branch reassigns the prediction) and is omitted. -/
def predictWithModel (latestScore avgScore attemptsCount daysSince : ℚ) : ℤ :=
  max 1 (jsRound
    (if 8 ≤ latestScore then min 30 (7 + attemptsCount * 2)
     else if 6 ≤ latestScore then min 14 (5 + attemptsCount)
     else ((max 1 (3 - ⌊(6 - latestScore) / 2⌋) : ℤ) : ℚ)))

/-- Embeds MLModelService.predictNextReviewDays: validates the four inputs,
then dispatches to the model path when a model is loaded and to the
fallback heuristic otherwise.  The source condition modelLoaded and model
is collapsed into the single flag modelLoaded. -/
def predictNextReviewDays (modelLoaded : Bool)
    (latestScore avgScore attemptsCount daysSinceLastAttempt : JSNum) : ℤ :=
  if modelLoaded then
    predictWithModel (validScore latestScore) (validScore avgScore)
      (validAttempts attemptsCount) (validDays daysSinceLastAttempt)
  else
    predictWithFallback (validScore latestScore) (validScore avgScore)
      (validAttempts attemptsCount) (validDays daysSinceLastAttempt)

/-- Follows the words of the C2 claim (spec section 4.6), for comparison
with the source embedding: the base interval keyed on the attempt count and
score bands. -/
def specBaseInterval (latestScore : ℚ) (attemptsCount : ℕ) (daysSince ease : ℚ) : ℤ :=
  if attemptsCount = 1 then
    (if 7 ≤ latestScore then 3 else if 5 ≤ latestScore then 2 else 1)
  else if attemptsCount = 2 then
    (if 7 ≤ latestScore then 7 else if 5 ≤ latestScore then 5 else 3)
  else jsRound (max daysSince 1 * ease)

/-- Follows the words of the C2 claim: a latest score below 5 halves the
interval (floor, minimum 1) and a latest score of 9 or more multiplies it
by 1.3 (ceiling). -/
def specPostModifier (latestScore : ℚ) (interval : ℤ) : ℤ :=
  if latestScore < 5 then max 1 ⌊(interval : ℚ) * (1 / 2)⌋
  else if 9 ≤ latestScore then ⌈(interval : ℚ) * (13 / 10)⌉
  else interval

/-- Follows the words of the C2 claim: the full fallback heuristic, with
the result finally clamped to the range 1 to 60. -/
def specFallbackHeuristic (latestScore avgScore : ℚ) (attemptsCount : ℕ)
    (daysSince : ℚ) : ℤ :=
  max 1 (min 60 (specPostModifier latestScore
    (specBaseInterval latestScore attemptsCount daysSince (easeFactorOf latestScore avgScore))))

/-! ## Topic clustering (PDFProcessor.clusterEmbeddings) -/

/-- Embeds the local cosineSimilarity of clusterEmbeddings: the loop over
the indices of the first vector accumulating the dot product and the two
squared norms, then dot / (sqrt normA * sqrt normB).  JavaScript numbers
are modelled as reals so that the square root is exact. -/
noncomputable def cosineSimilarity (a b : List ℝ) : ℝ :=
  ((List.range a.length).foldl (fun acc i => acc + a.getD i 0 * b.getD i 0) 0) /
    (Real.sqrt ((List.range a.length).foldl (fun acc i => acc + a.getD i 0 * a.getD i 0) 0) *
     Real.sqrt ((List.range a.length).foldl (fun acc i => acc + b.getD i 0 * b.getD i 0) 0))

/-- Embeds the merge loop body of clusterEmbeddings: every entry holding
the old cluster label is relabelled with the new one. -/
def relabel (clusters : List ℕ) (oldCluster newCluster : ℕ) : List ℕ :=
  clusters.map fun c => if c = oldCluster then newCluster else c

/-- Embeds one iteration of the double loop of clusterEmbeddings: when the
cosine similarity of the pair exceeds the threshold, the cluster of the
second index is merged into the cluster of the first. -/
noncomputable def mergeStep (embeddings : List (List ℝ)) (threshold : ℝ)
    (clusters : List ℕ) (p : ℕ × ℕ) : List ℕ :=
  if threshold < cosineSimilarity (embeddings.getD p.1 []) (embeddings.getD p.2 []) then
    relabel clusters (clusters.getD p.2 0) (clusters.getD p.1 0)
  else clusters

/-- Embeds the iteration order of the double loop of clusterEmbeddings: i
ascending over all indices, j ascending from i + 1. -/
def pairList (n : ℕ) : List (ℕ × ℕ) :=
  (List.range n).bind fun i => (List.range' (i + 1) (n - (i + 1))).map fun j => (i, j)

/-- Embeds PDFProcessor.clusterEmbeddings: labels start as the identity
assignment and every similar pair merges the two labels (default threshold
0.5 at the call site). -/
noncomputable def clusterEmbeddings (embeddings : List (List ℝ)) (threshold : ℝ) : List ℕ :=
  (pairList embeddings.length).foldl (mergeStep embeddings threshold)
    (List.range embeddings.length)

/-- Intermediate label state used to reason about the merge loop: the first
k labels are 0 and the rest still carry their own index. -/
def stateK (k n : ℕ) : List ℕ :=
  (List.range n).map fun x => if x < k then 0 else x

/-! ## Title deduplication (PDFProcessor.calculateSimilarity / processForQuiz) -/

/-- Embeds the word-set extraction of calculateSimilarity: lower-case the
string, split on whitespace, and collect the words into a set.  The source
splits on the whitespace regex, which never produces interior empty pieces;
empty pieces from boundary whitespace are filtered here, which does not
affect similarity comparisons of trimmed titles. -/
def titleWords (s : String) : Finset String :=
  ((s.toLower.split (fun c => c.isWhitespace)).filter (fun w => w ≠ "")).toFinset

/-- Embeds PDFProcessor.calculateSimilarity: Jaccard similarity, the size of
the intersection of the two word sets divided by the size of their union. -/
def calculateSimilarity (str1 str2 : String) : ℚ :=
  (((titleWords str1) ∩ (titleWords str2)).card : ℚ) /
    (((titleWords str1) ∪ (titleWords str2)).card : ℚ)

/-- Embeds one iteration of the title-acceptance loop of processForQuiz: a
candidate title similar (above 0.8) to any previously accepted title is
discarded, otherwise it is appended to the accepted list. -/
def acceptStep (existingTitles : List String) (cleanTitle : String) : List String :=
  if existingTitles.any (fun e => (4 : ℚ) / 5 < calculateSimilarity cleanTitle e)
  then existingTitles
  else existingTitles ++ [cleanTitle]

/-- Embeds the title-acceptance loop of processForQuiz over the whole run:
the accepted titles are exactly the titles of the clusters for which a
Topic is persisted, in cluster order. -/
def acceptTitles (candidates : List String) : List String :=
  candidates.foldl acceptStep []

/-! ## Quiz generation (backend-js/src/services/quizGenerator.js) -/

/-- Embeds a parsed question record as built by QuizGenerator.parseResponse,
or a retry question fetched from storage (for which is_retry is true and
question_id is already set). -/
structure ParsedQuestion where
  question_id : String
  question_text : String
  options : List String
  correct_answer : Char
  answer_text : String
  explanation : String
  is_retry : Bool
deriving DecidableEq

/-- Embeds the question shape returned to the caller by generateMCQs: only
the identifier, the stem, the options, and the retry flag; the correct
answer is stripped. -/
structure PublicQuestion where
  question_id : String
  question_text : String
  options : List String
  is_retry : Bool
deriving DecidableEq

/-- Abstracts the JavaScript regular-expression operations used by
parseResponse; the regex engine is runtime library code.  splitBlocks is
text.split on the Question-number marker; matchStem extracts the stem
before the first lettered option; matchOptA through matchOptD extract the
four lettered options; matchAnswer extracts the answer letter (matched by
the character class A-D under the case-insensitive flag) and the trailing
answer text; matchExplanation extracts the explanation line. -/
structure RegexOps where
  splitBlocks : String → List String
  matchStem : String → Option String
  matchOptA : String → Option String
  matchOptB : String → Option String
  matchOptC : String → Option String
  matchOptD : String → Option String
  matchAnswer : String → Option (Char × String)
  matchExplanation : String → Option String

/-- Embeds the string ABCD indexOf lookup used for the fallback answer
text; the source yields index -1 for any other character, which cannot
occur when the answer letter comes from the A-D character class. -/
def letterIndex (c : Char) : ℕ :=
  if c = 'A' then 0 else if c = 'B' then 1 else if c = 'C' then 2
  else if c = 'D' then 3 else 0

/-- Embeds the per-block body of parseResponse: a block missing the stem,
any of the four options, or the answer match is dropped (the source
continues the loop); the answer letter is upper-cased, the answer text
falls back to the option text when the captured text is empty, and a
missing explanation becomes the fixed default. -/
def parseBlock (R : RegexOps) (block : String) : Option ParsedQuestion :=
  match R.matchStem block with
  | none => none
  | some stem =>
    match R.matchOptA block, R.matchOptB block, R.matchOptC block, R.matchOptD block with
    | some a, some b, some c, some d =>
      match R.matchAnswer block with
      | none => none
      | some (letter, ansRaw) =>
        some { question_id := ""
               question_text := stem.trim
               options := [a.trim, b.trim, c.trim, d.trim]
               correct_answer := letter.toUpper
               answer_text :=
                 if ansRaw.trim = "" then
                   [a.trim, b.trim, c.trim, d.trim].getD (letterIndex letter.toUpper) ""
                 else ansRaw.trim
               explanation :=
                 match R.matchExplanation block with
                 | some e => e.trim
                 | none => "No explanation provided."
               is_retry := false }
    | _, _, _, _ => none

/-- Embeds QuizGenerator.parseResponse: split the response on the
Question-number marker, discard the prefix before the first question, and
parse each block, silently dropping malformed blocks. -/
def parseResponse (R : RegexOps) (text : String) : List ParsedQuestion :=
  ((R.splitBlocks text).drop 1).filterMap (parseBlock R)

/-- Embeds the destructuring swap of shuffleArray at two indices.  Both
indices are in range in every reachable call when the random draws lie in
the unit interval. -/
def swapIdx {α : Type} (l : List α) (i j : ℕ) : List α :=
  match l.get? i, l.get? j with
  | some a, some b => (l.set i b).set j a
  | _, _ => l

/-- Embeds the countdown loop of QuizGenerator.shuffleArray (Fisher-Yates):
at index i the element is swapped with index floor(random * (i + 1)); the
random draws are passed in as a function of the loop index. -/
def shuffleAux {α : Type} (rand : ℕ → ℚ) : ℕ → List α → List α
  | 0, l => l
  | i + 1, l =>
    shuffleAux rand i (swapIdx l (i + 1) (⌊rand (i + 1) * (((i + 2 : ℕ)) : ℚ)⌋).toNat)

/-- Embeds QuizGenerator.shuffleArray: the loop starts at the last index
and stops before index 0. -/
def shuffleArray {α : Type} (rand : ℕ → ℚ) (l : List α) : List α :=
  shuffleAux rand (l.length - 1) l

/-- Embeds QuizGenerator.saveQuestions: retry questions are passed through
unchanged (they are already persisted), newly generated ones are stored
under a fresh identifier; the identifier source is a parameter. -/
def saveQuestions (uuid : ℕ → String) (questions : List ParsedQuestion) :
    List ParsedQuestion :=
  questions.enum.map fun p =>
    if p.2.is_retry then p.2 else { p.2 with question_id := uuid p.1 }

/-- Embeds the final mapping of generateMCQs: the returned record keeps the
identifier, stem, options, and retry flag, and strips the correct answer
and explanation. -/
def toPublic (q : ParsedQuestion) : PublicQuestion :=
  { question_id := q.question_id
    question_text := q.question_text
    options := q.options
    is_retry := q.is_retry || false }

/-- Embeds QuizGenerator.generateMCQs with its external interactions as
parameters: the retry questions fetched for the latest attempt (the query
is limited to 4), the text-generation response, the regex operations, the
identifier source, and the random draws.  New questions are parsed only
when fewer than 10 retries exist, the combined list is capped at 10,
shuffled, saved, and returned with correct answers stripped. -/
def generateMCQs (R : RegexOps) (uuid : ℕ → String) (rand : ℕ → ℚ)
    (mistakeQuestions : List ParsedQuestion) (response : String) :
    List PublicQuestion :=
  (saveQuestions uuid (shuffleArray rand
    (mistakeQuestions ++
      (if 0 < 10 - mistakeQuestions.length then parseResponse R response
       else []).take (10 - mistakeQuestions.length)))).map toPublic

/-- Fixture regex operations whose matchers always fail; used to evaluate
the generator on a concrete input. -/
def emptyRegexOps : RegexOps :=
  { splitBlocks := fun _ => []
    matchStem := fun _ => none
    matchOptA := fun _ => none
    matchOptB := fun _ => none
    matchOptC := fun _ => none
    matchOptD := fun _ => none
    matchAnswer := fun _ => none
    matchExplanation := fun _ => none }

/-! ## Chat provider fallback (backend-js/src/services/llmService.js) -/

/-- Embeds one stored conversation message of LLMService. -/
structure ChatMsg where
  role : String
  content : String
deriving DecidableEq

/-- Embeds LLMService.addToHistory: appends one message to the session's
history.  The process-wide map of histories is modelled as a total function
from session identifiers to message lists, absent sessions reading as the
empty list (getMessageHistory inserts an empty list for a missing key,
which leaves every session's message content unchanged). -/
def addToHistory (histories : String → List ChatMsg)
    (sessionId role content : String) : String → List ChatMsg :=
  fun s =>
    if s = sessionId then histories s ++ [{ role := role, content := content }]
    else histories s

/-- Embeds LLMService.getRecentMessages: the sliding window of the last 10
stored messages of the session (history.slice(-10)). -/
def getRecentMessages (histories : String → List ChatMsg) (sessionId : String) :
    List ChatMsg :=
  (histories sessionId).drop ((histories sessionId).length - 10)

/-- Embeds LLMService.chat with the two text-generation providers
abstracted by their outcomes (some response or a failure): the primary
(Groq) result is used when available, otherwise the secondary (Gemini)
result; when both fail the service-unavailable error is raised and the
histories are returned untouched; on success the user message and the
assistant response are appended to the session history.  The prompt
assembly from getRecentMessages does not affect the stored state. -/
def chat (histories : String → List ChatMsg) (message sessionId : String)
    (groqResult geminiResult : Option String) :
    (String → List ChatMsg) × Except String String :=
  match groqResult with
  | some r =>
    (addToHistory (addToHistory histories sessionId "user" message)
        sessionId "assistant" r,
     Except.ok r)
  | none =>
    match geminiResult with
    | some r =>
      (addToHistory (addToHistory histories sessionId "user" message)
          sessionId "assistant" r,
       Except.ok r)
    | none =>
      (histories,
       Except.error "AI service temporarily unavailable. Please try again later.")

/-! ### Scheduler lemmas -/

lemma jsRound_intCast (k : ℤ) : jsRound ((k : ℤ) : ℚ) = k := by
  rw [jsRound, add_comm, Int.floor_add_int]
  have : ⌊(1 : ℚ) / 2⌋ = 0 := by norm_num
  omega

lemma jsRound_mono {a b : ℚ} (h : a ≤ b) : jsRound a ≤ jsRound b :=
  Int.floor_le_floor (by linarith)

lemma validScore_num {q : ℚ} (h0 : 0 ≤ q) (h10 : q ≤ 10) :
    validScore (.num q) = q := by
  have : (JSNum.num q).orElse 0 = q := by
    by_cases h : q = 0 <;> simp [JSNum.orElse, h]
  rw [validScore, this, min_eq_right h10, max_eq_right h0]

lemma validAttempts_cast {n : ℕ} (hn : 1 ≤ n) :
    validAttempts (.num (n : ℚ)) = (n : ℚ) := by
  have hne : ((n : ℚ)) ≠ 0 := Nat.cast_ne_zero.mpr (by omega)
  rw [validAttempts, JSNum.orElse, if_neg hne, max_eq_right (by exact_mod_cast hn)]

lemma validDays_num {d : ℚ} (hd : 0 ≤ d) : validDays (.num d) = d := by
  have : (JSNum.num d).orElse 0 = d := by
    by_cases h : d = 0 <;> simp [JSNum.orElse, h]
  rw [validDays, this, max_eq_right hd]

lemma baseInterval_cast (l : ℚ) (n : ℕ) (d e : ℚ) :
    baseInterval l (n : ℚ) d e = ((specBaseInterval l n d e : ℤ) : ℚ) := by
  have hc1 : ((n : ℚ) = 1) ↔ n = 1 := by exact_mod_cast Iff.rfl
  have hc2 : ((n : ℚ) = 2) ↔ n = 2 := by exact_mod_cast Iff.rfl
  simp only [baseInterval, specBaseInterval, hc1, hc2]
  split_ifs <;> norm_num

/-! ### Chunker lemmas -/

lemma chunkTextAux_get? (ws stride : ℕ) (hs1 : 1 ≤ stride) (hs2 : stride ≤ ws) :
    ∀ (fuel : ℕ) (t : List Char), t.length ≤ fuel → t ≠ [] →
      ∀ k, k < (chunkTextAux ws stride fuel t).length →
        (chunkTextAux ws stride fuel t).get? k = some ((t.drop (k * stride)).take ws) := by
  intro fuel
  induction fuel with
  | zero =>
    intro t hle hne k hk
    exact absurd (List.eq_nil_of_length_eq_zero (Nat.le_zero.mp hle)) hne
  | succ n ih =>
    intro t hle hne k hk
    by_cases hshort : t.length ≤ ws
    · simp only [chunkTextAux, if_pos hshort, List.length_singleton] at hk ⊢
      have hk0 : k = 0 := by omega
      subst hk0
      simp [List.take_of_length_le hshort]
    · simp only [chunkTextAux, if_neg hshort] at hk ⊢
      match k with
      | 0 => simp
      | k + 1 =>
        have hne' : t.drop stride ≠ [] := by
          intro h
          have := congrArg List.length h
          simp only [List.length_drop, List.length_nil] at this
          omega
        have hlen' : (t.drop stride).length ≤ n := by
          simp only [List.length_drop]; omega
        have hk' : k < (chunkTextAux ws stride n (t.drop stride)).length := by
          simpa using hk
        have := ih (t.drop stride) hlen' hne' k hk'
        simp only [List.get?_cons_succ, this, List.drop_drop]
        congr 2
        ring

lemma chunkTextAux_join (ws ov : ℕ) (hov : ov < ws) :
    ∀ (fuel : ℕ) (t : List Char), t.length ≤ fuel → t ≠ [] →
      ((chunkTextAux ws (ws - ov) fuel t).map (fun c => c.drop ov)).join = t.drop ov := by
  intro fuel
  induction fuel with
  | zero =>
    intro t hle hne
    exact absurd (List.eq_nil_of_length_eq_zero (Nat.le_zero.mp hle)) hne
  | succ n ih =>
    intro t hle hne
    by_cases hshort : t.length ≤ ws
    · simp [chunkTextAux, if_pos hshort]
    · have hstride1 : 1 ≤ ws - ov := by omega
      have hne' : t.drop (ws - ov) ≠ [] := by
        intro h
        have := congrArg List.length h
        simp only [List.length_drop, List.length_nil] at this
        omega
      have hlen' : (t.drop (ws - ov)).length ≤ n := by
        simp only [List.length_drop]; omega
      have hIH := ih (t.drop (ws - ov)) hlen' hne'
      simp only [chunkTextAux, if_neg hshort, List.map_cons, List.join_cons, hIH,
        List.drop_drop]
      have h1 : (t.take ws).drop ov = (t.drop ov).take (ws - ov) := by
        rw [List.drop_take]
      have h2 : ws - ov + ov = ws := by omega
      rw [h1, h2]
      have h3 : (t.drop ov).drop (ws - ov) = t.drop ws := by
        rw [List.drop_drop]
        congr 1
        omega
      rw [← h3, List.take_append_drop]

/-- C1: for every text and window parameters with overlap < windowSize, the
chunker produces chunks of length at most windowSize, the k-th chunk is the
window starting k * (windowSize - overlap) characters into the text,
stitching the chunks at the overlap boundary reconstructs the text, and a
NONEMPTY text shorter than the window yields exactly one chunk equal to the
input (the empty text yields no chunk, which is the correction to the
claim). -/
theorem claim_C1_chunker (ws ov : ℕ) (t : List Char) (hov : ov < ws) :
    (∀ c ∈ chunkText ws ov t, c.length ≤ ws) ∧
    (∀ k, k < (chunkText ws ov t).length →
      (chunkText ws ov t).get? k = some ((t.drop (k * (ws - ov))).take ws)) ∧
    stitch ov (chunkText ws ov t) = t ∧
    (t ≠ [] → t.length < ws → chunkText ws ov t = [t]) := by
  by_cases hnil : t = []
  · subst hnil
    refine ⟨by simp [chunkText], by simp [chunkText], by simp [chunkText, stitch], ?_⟩
    intro h
    exact absurd rfl h
  · have hs1 : 1 ≤ ws - ov := by omega
    have hs2 : ws - ov ≤ ws := Nat.sub_le ws ov
    have hne : ¬ t.isEmpty := by simpa [List.isEmpty_iff]
    have hchunk : chunkText ws ov t = chunkTextAux ws (ws - ov) t.length t := by
      simp [chunkText, hne]
    have hget := chunkTextAux_get? ws (ws - ov) hs1 hs2 t.length t le_rfl hnil
    obtain ⟨m, hm⟩ : ∃ m, t.length = m + 1 :=
      Nat.exists_eq_succ_of_ne_zero (by simpa using hnil)
    refine ⟨?_, ?_, ?_, ?_⟩
    · intro c hc
      rw [hchunk] at hc
      obtain ⟨k, hk⟩ := List.mem_iff_get?.mp hc
      have hklt : k < (chunkTextAux ws (ws - ov) t.length t).length :=
        List.get?_eq_some.mp hk |>.1
      have := hget k hklt
      rw [this] at hk
      have hc' : c = (t.drop (k * (ws - ov))).take ws := by
        exact (Option.some.injEq _ _ ▸ hk).symm
      rw [hc']
      simpa using Nat.min_le_left ws _
    · intro k hk
      rw [hchunk] at hk ⊢
      exact hget k hk
    · rw [hchunk, hm]
      by_cases hshort : t.length ≤ ws
      · simp [chunkTextAux, if_pos hshort, stitch]
      · have hne' : t.drop (ws - ov) ≠ [] := by
          intro h
          have := congrArg List.length h
          simp only [List.length_drop, List.length_nil] at this
          omega
        have hlen' : (t.drop (ws - ov)).length ≤ m := by
          simp only [List.length_drop]; omega
        have hIH := chunkTextAux_join ws ov hov m (t.drop (ws - ov)) hlen' hne'
        simp only [chunkTextAux, if_neg hshort, stitch, hIH, List.drop_drop]
        have h2 : ws - ov + ov = ws := by omega
        rw [h2, List.take_append_drop]
    · intro _ hlt
      rw [hchunk, hm]
      simp [chunkTextAux, if_pos (Nat.le_of_lt (hm ▸ hlt))]
      omega

theorem claim_C1_chunker_cex :
    ([] : List Char).length < 500 ∧ chunkText 500 50 [] ≠ [([] : List Char)] := by
  exact ⟨by decide, by decide⟩

theorem claim_C1_chunker_witness :
    1 < 3 ∧
    ((∀ c ∈ chunkText 3 1 ['a', 'b', 'c', 'd', 'e'], c.length ≤ 3) ∧
     (∀ k, k < (chunkText 3 1 ['a', 'b', 'c', 'd', 'e']).length →
        (chunkText 3 1 ['a', 'b', 'c', 'd', 'e']).get? k =
          some ((['a', 'b', 'c', 'd', 'e'].drop (k * (3 - 1))).take 3)) ∧
     stitch 1 (chunkText 3 1 ['a', 'b', 'c', 'd', 'e']) = ['a', 'b', 'c', 'd', 'e'] ∧
     (['a', 'b', 'c', 'd', 'e'] ≠ [] → ['a', 'b', 'c', 'd', 'e'].length < 3 →
        chunkText 3 1 ['a', 'b', 'c', 'd', 'e'] = [['a', 'b', 'c', 'd', 'e']])) :=
  ⟨by decide, claim_C1_chunker 3 1 ['a', 'b', 'c', 'd', 'e'] (by decide)⟩

/-- C4: for every score in the range 0 to 10, determineTopicStatus returns
Completed exactly when 7 < score, Weak exactly when score ≤ 7 (so a score of
exactly 7 is Weak), and the result is always one of the two values. -/
theorem claim_C4_topicStatus (score : ℚ) (h0 : 0 ≤ score) (h10 : score ≤ 10) :
    (determineTopicStatus score = "Completed" ↔ 7 < score) ∧
    (determineTopicStatus score = "Weak" ↔ score ≤ 7) ∧
    (determineTopicStatus score = "Completed" ∨ determineTopicStatus score = "Weak") := by
  have hCW : ("Completed" : String) ≠ "Weak" := by decide
  by_cases h : 7 < score
  · simp only [determineTopicStatus, if_pos h]
    exact ⟨⟨fun _ => h, fun _ => trivial⟩,
           ⟨fun hc => absurd hc hCW, fun hle => absurd h (not_lt.mpr hle)⟩,
           Or.inl trivial⟩
  · simp only [determineTopicStatus, if_neg h]
    exact ⟨⟨fun hc => absurd hc.symm hCW, fun hlt => absurd hlt h⟩,
           ⟨fun _ => not_lt.mp h, fun _ => trivial⟩,
           Or.inr trivial⟩

theorem claim_C4_topicStatus_witness :
    ((0 : ℚ) ≤ 7 ∧ (7 : ℚ) ≤ 10 ∧ determineTopicStatus 7 = "Weak") ∧
    ((0 : ℚ) ≤ 8 ∧ (8 : ℚ) ≤ 10 ∧ determineTopicStatus 8 = "Completed") :=
  ⟨⟨by norm_num, by norm_num,
      (claim_C4_topicStatus 7 (by norm_num) (by norm_num)).2.1.mpr (by norm_num)⟩,
   ⟨by norm_num, by norm_num,
      (claim_C4_topicStatus 8 (by norm_num) (by norm_num)).1.mpr (by norm_num)⟩⟩

/-- C5: calculateScore equals (correctCount / total) * 10 whenever total ≥ 1
and correctCount ≤ total, full marks are 10, zero correct is 0, and a zero
total yields 0 rather than a division-by-zero error. -/
theorem claim_C5_score (c t : ℕ) :
    (1 ≤ t → c ≤ t → calculateScore c t = ((c : ℚ) / (t : ℚ)) * 10) ∧
    calculateScore 0 t = 0 ∧
    (1 ≤ t → calculateScore t t = 10) ∧
    calculateScore c 0 = 0 := by
  refine ⟨?_, ?_, ?_, ?_⟩
  · intro h1 _
    rw [calculateScore, if_neg (by omega)]
  · by_cases h : t = 0 <;> simp [calculateScore, h]
  · intro h1
    have ht : (t : ℚ) ≠ 0 := Nat.cast_ne_zero.mpr (by omega)
    rw [calculateScore, if_neg (by omega), div_self ht, one_mul]
  · simp [calculateScore]

theorem claim_C5_score_witness :
    (1 ≤ 4 ∧ 3 ≤ 4 ∧ calculateScore 3 4 = ((3 : ℚ) / 4) * 10) ∧
    calculateScore 0 4 = 0 ∧ calculateScore 4 4 = 10 ∧ calculateScore 3 0 = 0 :=
  ⟨⟨by norm_num, by norm_num, (claim_C5_score 3 4).1 (by norm_num) (by norm_num)⟩,
   (claim_C5_score 0 4).2.1, (claim_C5_score 4 4).2.2.1 (by norm_num),
   (claim_C5_score 3 0).2.2.2⟩

/-- C3: for every combination of model availability and raw inputs,
including negative, out-of-range, NaN, and missing values,
predictNextReviewDays returns an integer between 1 and 60 on both the model
path and the fallback path, and the validation clamps the scores to the
range 0 to 10, floors the attempt count at 1, and floors the days since
the last attempt at 0.  Totality of the embedding reflects that the source
function never throws on malformed numeric input. -/
theorem claim_C3_scheduler_bounds (mb : Bool) (l a n d : JSNum) :
    (1 ≤ predictNextReviewDays mb l a n d ∧ predictNextReviewDays mb l a n d ≤ 60) ∧
    (0 ≤ validScore l ∧ validScore l ≤ 10) ∧
    (0 ≤ validScore a ∧ validScore a ≤ 10) ∧
    1 ≤ validAttempts n ∧ 0 ≤ validDays d := by
  refine ⟨?_, ⟨le_max_left 0 _, max_le (by norm_num) (min_le_left 10 _)⟩,
    ⟨le_max_left 0 _, max_le (by norm_num) (min_le_left 10 _)⟩,
    le_max_left 1 _, le_max_left 0 _⟩
  cases mb with
  | false =>
    simp only [predictNextReviewDays, Bool.false_eq_true, if_false, predictWithFallback]
    exact ⟨le_max_left 1 _, max_le (by norm_num) (min_le_left 60 _)⟩
  | true =>
    simp only [predictNextReviewDays, if_true, predictWithModel]
    set ls := validScore l with hls
    set n' := validAttempts n with hn'
    refine ⟨le_max_left 1 _, max_le (by norm_num) ?_⟩
    have hpred : (if 8 ≤ ls then min 30 (7 + n' * 2)
        else if 6 ≤ ls then min 14 (5 + n')
        else ((max 1 (3 - ⌊(6 - ls) / 2⌋) : ℤ) : ℚ)) ≤ 30 := by
      split_ifs with h8 h6
      · exact min_le_left 30 _
      · exact le_trans (min_le_left 14 _) (by norm_num)
      · have hls0 : 0 ≤ ls := le_max_left 0 _
        have hfl : (0 : ℤ) ≤ ⌊(6 - ls) / 2⌋ := by
          apply Int.floor_nonneg.mpr
          have : ls ≤ 6 := le_of_not_le h6
          linarith
        have : (max 1 (3 - ⌊(6 - ls) / 2⌋) : ℤ) ≤ 30 := by omega
        exact_mod_cast this
    calc jsRound _ ≤ jsRound 30 := jsRound_mono hpred
      _ = 30 := by rw [show (30 : ℚ) = ((30 : ℤ) : ℚ) by norm_num, jsRound_intCast]
      _ ≤ 60 := by norm_num

/-- C2: with no model loaded, predictNextReviewDays coincides with the
fallback heuristic exactly as the spec words it, for every latest score and
average score in the range 0 to 10, every attempt count of at least 1 and
every nonnegative days-since-last-attempt; and the ease factor is the
stated linear function of (latestScore + avgScore) / 20 and stays within
1.3 to 2.5. -/
theorem claim_C2_fallback_formula (l a d : ℚ) (n : ℕ)
    (hl0 : 0 ≤ l) (hl10 : l ≤ 10) (ha0 : 0 ≤ a) (ha10 : a ≤ 10)
    (hn : 1 ≤ n) (hd : 0 ≤ d) :
    predictNextReviewDays false (.num l) (.num a) (.num (n : ℚ)) (.num d)
      = specFallbackHeuristic l a n d ∧
    13 / 10 ≤ easeFactorOf l a ∧ easeFactorOf l a ≤ 5 / 2 := by
  refine ⟨?_, ?_, ?_⟩
  · simp only [predictNextReviewDays, Bool.false_eq_true, if_false,
      validScore_num hl0 hl10, validScore_num ha0 ha10, validAttempts_cast hn,
      validDays_num hd]
    rw [predictWithFallback, specFallbackHeuristic, baseInterval_cast]
    set k := specBaseInterval l n d (easeFactorOf l a) with hk
    by_cases h5 : l < 5
    · simp only [applyModifier, specPostModifier, if_pos h5, jsRound_intCast]
    · by_cases h9 : 9 ≤ l
      · simp only [applyModifier, specPostModifier, if_neg h5, if_pos h9, jsRound_intCast]
        omega
      · simp only [applyModifier, specPostModifier, if_neg h5, if_neg h9, jsRound_intCast]
  · rw [easeFactorOf]; linarith
  · rw [easeFactorOf]; linarith

theorem claim_C2_fallback_formula_witness :
    ((0 : ℚ) ≤ 8 ∧ (8 : ℚ) ≤ 10 ∧ (0 : ℚ) ≤ 6 ∧ (6 : ℚ) ≤ 10 ∧ 1 ≤ 3 ∧ (0 : ℚ) ≤ 5) ∧
    (predictNextReviewDays false (.num 8) (.num 6) (.num ((3 : ℕ) : ℚ)) (.num 5)
        = specFallbackHeuristic 8 6 3 5 ∧
      13 / 10 ≤ easeFactorOf 8 6 ∧ easeFactorOf 8 6 ≤ 5 / 2) :=
  ⟨⟨by norm_num, by norm_num, by norm_num, by norm_num, by norm_num, by norm_num⟩,
    claim_C2_fallback_formula 8 6 5 3 (by norm_num) (by norm_num) (by norm_num)
      (by norm_num) (by norm_num) (by norm_num)⟩

/-- C9: holding the attempt count and days since the last attempt fixed,
the predicted interval at scores (9, 9) is never less than the predicted
interval at scores (3, 3), on both the model and the fallback path, for
every attempt count of at least 1 and nonnegative days since the last
attempt. -/
theorem claim_C9_score_monotone (mb : Bool) (n : ℕ) (d : ℚ) (hn : 1 ≤ n) (hd : 0 ≤ d) :
    predictNextReviewDays mb (.num 3) (.num 3) (.num (n : ℚ)) (.num d)
      ≤ predictNextReviewDays mb (.num 9) (.num 9) (.num (n : ℚ)) (.num d) := by
  have h3 : validScore (.num 3) = 3 := validScore_num (by norm_num) (by norm_num)
  have h9 : validScore (.num 9) = 9 := validScore_num (by norm_num) (by norm_num)
  have hvn := validAttempts_cast hn
  have hvd := validDays_num hd
  have hcast : (1 : ℚ) ≤ (n : ℚ) := by exact_mod_cast hn
  cases mb with
  | true =>
    simp only [predictNextReviewDays, if_true, h3, h9, hvn, hvd, predictWithModel]
    have hL : (if (8 : ℚ) ≤ 3 then min 30 (7 + (n : ℚ) * 2)
        else if (6 : ℚ) ≤ 3 then min 14 (5 + (n : ℚ))
        else ((max 1 (3 - ⌊((6 : ℚ) - 3) / 2⌋) : ℤ) : ℚ)) = 2 := by
      norm_num
    have hR : (9 : ℚ) ≤ min 30 (7 + (n : ℚ) * 2) :=
      le_min (by norm_num) (by linarith)
    rw [hL, if_pos (by norm_num : (8 : ℚ) ≤ 9)]
    have h2 : jsRound (2 : ℚ) = 2 := by
      rw [show (2 : ℚ) = ((2 : ℤ) : ℚ) by norm_num, jsRound_intCast]
    have hRR : (9 : ℤ) ≤ jsRound (min 30 (7 + (n : ℚ) * 2)) := by
      calc (9 : ℤ) = jsRound ((9 : ℚ)) := by
            rw [show (9 : ℚ) = ((9 : ℤ) : ℚ) by norm_num, jsRound_intCast]
        _ ≤ _ := jsRound_mono hR
    rw [h2]
    omega
  | false =>
    simp only [predictNextReviewDays, Bool.false_eq_true, if_false, h3, h9, hvn, hvd]
    by_cases h1 : n = 1
    · subst h1
      rw [predictWithFallback, predictWithFallback]
      norm_num [baseInterval, applyModifier, easeFactorOf, jsRound]
    · by_cases h2 : n = 2
      · subst h2
        rw [predictWithFallback, predictWithFallback]
        norm_num [baseInterval, applyModifier, easeFactorOf, jsRound]
      · have hc1 : ((n : ℚ)) ≠ 1 := by exact_mod_cast h1
        have hc2 : ((n : ℚ)) ≠ 2 := by exact_mod_cast h2
        rw [predictWithFallback, predictWithFallback]
        simp only [baseInterval, if_neg hc1, if_neg hc2]
        have he3 : easeFactorOf 3 3 = 83 / 50 := by norm_num [easeFactorOf]
        have he9 : easeFactorOf 9 9 = 119 / 50 := by norm_num [easeFactorOf]
        rw [he3, he9]
        set m := max d 1 with hm
        have hm1 : (1 : ℚ) ≤ m := le_max_right d 1
        set i3 := jsRound (m * (83 / 50)) with hi3
        set i9 := jsRound (m * (119 / 50)) with hi9
        have hi3nn : (0 : ℤ) ≤ i3 := by
          calc (0 : ℤ) = jsRound ((0 : ℚ)) := by
                rw [show (0 : ℚ) = ((0 : ℤ) : ℚ) by norm_num, jsRound_intCast]
            _ ≤ i3 := jsRound_mono (by nlinarith)
        have h39 : i3 ≤ i9 := jsRound_mono (by nlinarith)
        have hi9nn : (0 : ℤ) ≤ i9 := le_trans hi3nn h39
        simp only [applyModifier, if_pos (by norm_num : (3 : ℚ) < 5),
          if_neg (by norm_num : ¬ (9 : ℚ) < 5), if_pos (le_refl (9 : ℚ)),
          jsRound_intCast]
        have hfl : ⌊(i3 : ℚ) * (1 / 2)⌋ ≤ i3 := by
          calc ⌊(i3 : ℚ) * (1 / 2)⌋ ≤ ⌊(i3 : ℚ)⌋ := by
                apply Int.floor_le_floor
                have : (0 : ℚ) ≤ (i3 : ℚ) := by exact_mod_cast hi3nn
                linarith
            _ = i3 := Int.floor_intCast i3
        have hce : i9 ≤ ⌈(i9 : ℚ) * (13 / 10)⌉ := by
          calc i9 = ⌈(i9 : ℚ)⌉ := (Int.ceil_intCast i9).symm
            _ ≤ ⌈(i9 : ℚ) * (13 / 10)⌉ := by
                apply Int.ceil_le_ceil
                have : (0 : ℚ) ≤ (i9 : ℚ) := by exact_mod_cast hi9nn
                nlinarith
        omega

theorem claim_C9_score_monotone_witness :
    (1 ≤ 3 ∧ (0 : ℚ) ≤ 0) ∧
    predictNextReviewDays false (.num 3) (.num 3) (.num ((3 : ℕ) : ℚ)) (.num 0)
      ≤ predictNextReviewDays false (.num 9) (.num 9) (.num ((3 : ℕ) : ℚ)) (.num 0) :=
  ⟨⟨by norm_num, le_refl 0⟩, claim_C9_score_monotone false 3 0 (by norm_num) (le_refl 0)⟩

/-! ### Clustering lemmas -/

lemma getD_map_range (f : ℕ → ℕ) {n j : ℕ} (h : j < n) (d : ℕ) :
    ((List.range n).map f).getD j d = f j := by
  rw [List.getD_eq_getElem?_getD, List.getElem?_map, List.getElem?_range h]
  rfl

lemma getD_replicate_zero : ∀ (n j : ℕ), (List.replicate n 0).getD j 0 = 0
  | 0, _ => rfl
  | _ + 1, 0 => rfl
  | n + 1, j + 1 => getD_replicate_zero n j

lemma foldl_mergeStep_id (e : List (List ℝ)) (τ : ℝ) (l : List (ℕ × ℕ))
    (h : ∀ p ∈ l, ∀ acc, mergeStep e τ acc p = acc) :
    ∀ init, l.foldl (mergeStep e τ) init = init := by
  induction l with
  | nil => intro init; rfl
  | cons p ps ih =>
    intro init
    rw [List.foldl_cons, h p (by simp)]
    exact ih (fun q hq acc => h q (by simp [hq]) acc) init

lemma mergeStep_replicate (e : List (List ℝ)) (τ : ℝ) (n : ℕ) (p : ℕ × ℕ) :
    mergeStep e τ (List.replicate n 0) p = List.replicate n 0 := by
  rw [mergeStep]
  split_ifs
  · rw [getD_replicate_zero, getD_replicate_zero, relabel, List.map_replicate]
    simp
  · rfl

lemma foldl_mergeStep_replicate (e : List (List ℝ)) (τ : ℝ) (n : ℕ)
    (l : List (ℕ × ℕ)) :
    l.foldl (mergeStep e τ) (List.replicate n 0) = List.replicate n 0 := by
  induction l with
  | nil => rfl
  | cons p ps ih => rw [List.foldl_cons, mergeStep_replicate, ih]

lemma stateK_one (n : ℕ) : stateK 1 n = List.range n := by
  rw [stateK]
  conv_rhs => rw [← List.map_id (List.range n)]
  apply List.map_congr_left
  intro x _
  simp only [id_eq]
  split_ifs with h
  · omega
  · rfl

lemma stateK_self (n : ℕ) : stateK n n = List.replicate n 0 := by
  rw [stateK]
  calc (List.range n).map (fun x => if x < n then 0 else x)
      = (List.range n).map (fun _ => 0) := by
        apply List.map_congr_left
        intro x hx
        rw [if_pos (List.mem_range.mp hx)]
    _ = List.replicate n 0 := by simp

lemma mergeStep_state (e : List (List ℝ)) (τ : ℝ) (n j : ℕ)
    (hj1 : 1 ≤ j) (hjn : j < n)
    (hsim : τ < cosineSimilarity (e.getD 0 []) (e.getD j [])) :
    mergeStep e τ (stateK j n) (0, j) = stateK (j + 1) n := by
  rw [mergeStep]
  dsimp only
  rw [if_pos hsim]
  have h0 : (stateK j n).getD 0 0 = 0 := by
    rw [stateK, getD_map_range _ (by omega : 0 < n)]
    split_ifs <;> rfl
  have hjj : (stateK j n).getD j 0 = j := by
    rw [stateK, getD_map_range _ hjn]
    rw [if_neg (by omega)]
  rw [h0, hjj, relabel, stateK, stateK, List.map_map]
  apply List.map_congr_left
  intro x _
  simp only [Function.comp]
  split_ifs <;> omega

lemma row_fold (e : List (List ℝ)) (τ : ℝ) (n : ℕ)
    (H : ∀ j, 1 ≤ j → j < n → τ < cosineSimilarity (e.getD 0 []) (e.getD j [])) :
    ∀ (m j : ℕ), 1 ≤ j → j + m = n →
      ((List.range' j m).map fun j' => ((0 : ℕ), j')).foldl (mergeStep e τ) (stateK j n)
        = stateK n n := by
  intro m
  induction m with
  | zero =>
    intro j _ hjn
    obtain rfl : j = n := by omega
    rfl
  | succ m ih =>
    intro j hj hjn
    rw [List.range'_succ, List.map_cons, List.foldl_cons,
      mergeStep_state e τ n j hj (by omega) (H j hj (by omega))]
    exact ih (j + 1) (by omega) (by omega)

lemma pairList_mem {n : ℕ} {p : ℕ × ℕ} (h : p ∈ pairList n) :
    p.1 < p.2 ∧ p.2 < n := by
  rw [pairList, List.mem_bind] at h
  obtain ⟨i, hi, hmem⟩ := h
  rw [List.mem_map] at hmem
  obtain ⟨j, hj, rfl⟩ := hmem
  rw [List.mem_range'_1] at hj
  rw [List.mem_range] at hi
  exact ⟨by omega, by omega⟩

lemma cluster_all_similar (e : List (List ℝ)) (τ : ℝ)
    (H : ∀ i j, i < j → j < e.length →
      τ < cosineSimilarity (e.getD i []) (e.getD j [])) :
    clusterEmbeddings e τ = List.replicate e.length 0 := by
  rcases Nat.eq_zero_or_pos e.length with h0 | hpos
  · rw [clusterEmbeddings, pairList, h0]
    simp
  · rw [clusterEmbeddings, pairList]
    have hsplit : List.range e.length = 0 :: List.range' 1 (e.length - 1) := by
      rw [List.range_eq_range']
      obtain ⟨m, hm⟩ := Nat.exists_eq_succ_of_ne_zero (by omega : e.length ≠ 0)
      rw [hm, List.range'_succ]
      norm_num
    have hbind : ((List.range e.length).bind fun i =>
        (List.range' (i + 1) (e.length - (i + 1))).map fun j => (i, j))
        = ((List.range' 1 (e.length - 1)).map fun j => ((0 : ℕ), j))
          ++ ((List.range' 1 (e.length - 1)).bind fun i =>
              (List.range' (i + 1) (e.length - (i + 1))).map fun j => (i, j)) := by
      conv_lhs => rw [hsplit]
      rfl
    rw [hbind, List.foldl_append]
    have h1 : ((List.range' 1 (e.length - 1)).map
        fun j => ((0 : ℕ), j)).foldl (mergeStep e τ) (List.range e.length)
        = stateK e.length e.length := by
      rw [← stateK_one e.length]
      exact row_fold e τ e.length (fun j hj1 hjn => H 0 j (by omega) hjn)
        (e.length - 1) 1 le_rfl (by omega)
    rw [h1, stateK_self]
    exact foldl_mergeStep_replicate e τ e.length _

/-- C6: if every pairwise cosine similarity strictly exceeds the threshold
then clusterEmbeddings assigns every item the same label (one cluster over
all N items), and if every pairwise cosine similarity is at most the
threshold then the N labels are pairwise distinct (N singleton clusters). -/
theorem claim_C6_clustering (e : List (List ℝ)) (τ : ℝ) :
    ((∀ i j, i < j → j < e.length →
        τ < cosineSimilarity (e.getD i []) (e.getD j [])) →
      (∀ x ∈ clusterEmbeddings e τ, ∀ y ∈ clusterEmbeddings e τ, x = y) ∧
      (clusterEmbeddings e τ).length = e.length) ∧
    ((∀ i j, i < j → j < e.length →
        cosineSimilarity (e.getD i []) (e.getD j []) ≤ τ) →
      (clusterEmbeddings e τ).Nodup ∧
      (clusterEmbeddings e τ).length = e.length) := by
  constructor
  · intro H
    rw [cluster_all_similar e τ H]
    refine ⟨?_, by simp⟩
    intro x hx y hy
    rw [List.eq_of_mem_replicate hx, List.eq_of_mem_replicate hy]
  · intro H
    have hid : clusterEmbeddings e τ = List.range e.length := by
      rw [clusterEmbeddings]
      apply foldl_mergeStep_id
      intro p hp acc
      obtain ⟨hij, hjn⟩ := pairList_mem hp
      rw [mergeStep, if_neg (not_lt.mpr (H p.1 p.2 hij hjn))]
    rw [hid]
    exact ⟨List.nodup_range _, List.length_range _⟩

theorem claim_C6_clustering_witness :
    ((∀ i j, i < j → j < ([[(1 : ℝ)], [(1 : ℝ)]] : List (List ℝ)).length →
        (1 / 2 : ℝ) < cosineSimilarity (([[(1 : ℝ)], [(1 : ℝ)]] : List (List ℝ)).getD i [])
          (([[(1 : ℝ)], [(1 : ℝ)]] : List (List ℝ)).getD j [])) ∧
      (∀ x ∈ clusterEmbeddings [[(1 : ℝ)], [(1 : ℝ)]] (1 / 2),
        ∀ y ∈ clusterEmbeddings [[(1 : ℝ)], [(1 : ℝ)]] (1 / 2), x = y)) ∧
    ((∀ i j, i < j → j < ([[(1 : ℝ)], [(-1 : ℝ)]] : List (List ℝ)).length →
        cosineSimilarity (([[(1 : ℝ)], [(-1 : ℝ)]] : List (List ℝ)).getD i [])
          (([[(1 : ℝ)], [(-1 : ℝ)]] : List (List ℝ)).getD j []) ≤ (1 / 2 : ℝ)) ∧
      (clusterEmbeddings [[(1 : ℝ)], [(-1 : ℝ)]] (1 / 2)).Nodup) := by
  have h1 : ∀ i j, i < j → j < ([[(1 : ℝ)], [(1 : ℝ)]] : List (List ℝ)).length →
      (1 / 2 : ℝ) < cosineSimilarity (([[(1 : ℝ)], [(1 : ℝ)]] : List (List ℝ)).getD i [])
        (([[(1 : ℝ)], [(1 : ℝ)]] : List (List ℝ)).getD j []) := by
    intro i j hij hj
    simp only [List.length_cons, List.length_nil] at hj
    have hi0 : i = 0 := by omega
    have hj1 : j = 1 := by omega
    subst hi0; subst hj1
    norm_num [cosineSimilarity, List.range_succ, Real.sqrt_one, List.getD]
  have h2 : ∀ i j, i < j → j < ([[(1 : ℝ)], [(-1 : ℝ)]] : List (List ℝ)).length →
      cosineSimilarity (([[(1 : ℝ)], [(-1 : ℝ)]] : List (List ℝ)).getD i [])
        (([[(1 : ℝ)], [(-1 : ℝ)]] : List (List ℝ)).getD j []) ≤ (1 / 2 : ℝ) := by
    intro i j hij hj
    simp only [List.length_cons, List.length_nil] at hj
    have hi0 : i = 0 := by omega
    have hj1 : j = 1 := by omega
    subst hi0; subst hj1
    norm_num [cosineSimilarity, List.range_succ, Real.sqrt_one, List.getD]
  exact ⟨⟨h1, (claim_C6_clustering [[(1 : ℝ)], [(1 : ℝ)]] (1 / 2)).1 h1 |>.1⟩,
         ⟨h2, (claim_C6_clustering [[(1 : ℝ)], [(-1 : ℝ)]] (1 / 2)).2 h2 |>.1⟩⟩

/-! ### Title dedup lemmas -/

lemma calculateSimilarity_comm (a b : String) :
    calculateSimilarity a b = calculateSimilarity b a := by
  rw [calculateSimilarity, calculateSimilarity, Finset.inter_comm, Finset.union_comm]

lemma acceptStep_pairwise {ex : List String}
    (h : ex.Pairwise (fun u v => calculateSimilarity u v ≤ 4 / 5)) (t : String) :
    (acceptStep ex t).Pairwise (fun u v => calculateSimilarity u v ≤ 4 / 5) := by
  rw [acceptStep]
  split_ifs with hc
  · exact h
  · rw [List.pairwise_append]
    refine ⟨h, List.pairwise_singleton _ _, ?_⟩
    intro a ha b hb
    rw [List.mem_singleton] at hb
    subst hb
    rw [List.any_eq_true] at hc
    push_neg at hc
    have := hc a ha
    rw [calculateSimilarity_comm]
    simpa using this

lemma acceptTitles_loop_pairwise (cs : List String) :
    ∀ ex : List String,
      ex.Pairwise (fun u v => calculateSimilarity u v ≤ 4 / 5) →
      (cs.foldl acceptStep ex).Pairwise (fun u v => calculateSimilarity u v ≤ 4 / 5) := by
  induction cs with
  | nil => intro ex h; exact h
  | cons t ts ih =>
    intro ex h
    rw [List.foldl_cons]
    exact ih _ (acceptStep_pairwise h t)

/-- C7: in a single quiz-path ingestion run, no two accepted (persisted)
topic titles have Jaccard word-set similarity strictly above 0.8, because
each candidate title is compared against every previously accepted title
and is discarded exactly when the 0.8 gate trips, so earlier clusters
win. -/
theorem claim_C7_title_dedup (candidates : List String) :
    (acceptTitles candidates).Pairwise
      (fun u v => calculateSimilarity u v ≤ 4 / 5) ∧
    (∀ t, acceptTitles (candidates ++ [t])
        = if (acceptTitles candidates).any
              (fun e => (4 : ℚ) / 5 < calculateSimilarity t e)
          then acceptTitles candidates
          else acceptTitles candidates ++ [t]) := by
  constructor
  · exact acceptTitles_loop_pairwise candidates [] List.Pairwise.nil
  · intro t
    rw [acceptTitles, acceptTitles, List.foldl_append, List.foldl_cons, List.foldl_nil]
    rfl

/-! ### Quiz generator lemmas -/

lemma mem_swapIdx {α : Type} {l : List α} {i j : ℕ} {x : α}
    (h : x ∈ swapIdx l i j) : x ∈ l := by
  unfold swapIdx at h
  split at h
  case _ a b hi hj =>
    rcases List.mem_or_eq_of_mem_set h with h1 | rfl
    · rcases List.mem_or_eq_of_mem_set h1 with h2 | rfl
      · exact h2
      · exact List.get?_mem hj
    · exact List.get?_mem hi
  case _ => exact h

lemma length_swapIdx {α : Type} (l : List α) (i j : ℕ) :
    (swapIdx l i j).length = l.length := by
  unfold swapIdx
  split
  · simp [List.length_set]
  · rfl

lemma mem_shuffleAux {α : Type} (rand : ℕ → ℚ) :
    ∀ (k : ℕ) (l : List α) (x : α), x ∈ shuffleAux rand k l → x ∈ l := by
  intro k
  induction k with
  | zero => intro l x h; exact h
  | succ i ih =>
    intro l x h
    simp only [shuffleAux] at h
    exact mem_swapIdx (ih _ x h)

lemma length_shuffleAux {α : Type} (rand : ℕ → ℚ) :
    ∀ (k : ℕ) (l : List α), (shuffleAux rand k l).length = l.length := by
  intro k
  induction k with
  | zero => intro l; rfl
  | succ i ih =>
    intro l
    simp only [shuffleAux]
    rw [ih, length_swapIdx]

lemma mem_shuffleArray {α : Type} {rand : ℕ → ℚ} {l : List α} {x : α}
    (h : x ∈ shuffleArray rand l) : x ∈ l :=
  mem_shuffleAux rand _ l x h

lemma length_shuffleArray {α : Type} (rand : ℕ → ℚ) (l : List α) :
    (shuffleArray rand l).length = l.length :=
  length_shuffleAux rand _ l

lemma length_saveQuestions (uuid : ℕ → String) (l : List ParsedQuestion) :
    (saveQuestions uuid l).length = l.length := by
  rw [saveQuestions, List.length_map, List.enum_length]

lemma mem_saveQuestions {uuid : ℕ → String} {l : List ParsedQuestion}
    {p : ParsedQuestion} (h : p ∈ saveQuestions uuid l) :
    ∃ q ∈ l, p.question_text = q.question_text ∧ p.options = q.options ∧
      p.is_retry = q.is_retry := by
  rw [saveQuestions, List.mem_map] at h
  obtain ⟨⟨k, q⟩, hq, rfl⟩ := h
  refine ⟨q, List.snd_mem_of_mem_enum hq, ?_⟩
  dsimp only
  split_ifs <;> exact ⟨rfl, rfl, rfl⟩

lemma parseBlock_shape {R : RegexOps} {block : String} {q : ParsedQuestion}
    (h : parseBlock R block = some q) :
    q.options.length = 4 ∧
    ∃ c t, R.matchAnswer block = some (c, t) ∧ q.correct_answer = c.toUpper := by
  unfold parseBlock at h
  cases hs : R.matchStem block with
  | none => simp [hs] at h
  | some stem =>
    simp only [hs] at h
    cases hA : R.matchOptA block with
    | none => simp [hA] at h
    | some a =>
      cases hB : R.matchOptB block with
      | none => simp [hA, hB] at h
      | some b =>
        cases hC : R.matchOptC block with
        | none => simp [hA, hB, hC] at h
        | some c =>
          cases hD : R.matchOptD block with
          | none => simp [hA, hB, hC, hD] at h
          | some d =>
            simp only [hA, hB, hC, hD] at h
            cases hAns : R.matchAnswer block with
            | none => simp [hAns] at h
            | some pr =>
              obtain ⟨letter, ansRaw⟩ := pr
              simp only [hAns] at h
              rw [Option.some_inj] at h
              subst h
              exact ⟨rfl, letter, ansRaw, rfl, rfl⟩

lemma parseBlock_none_of_missing (R : RegexOps) (block : String)
    (h : R.matchStem block = none ∨ R.matchOptA block = none ∨
         R.matchOptB block = none ∨ R.matchOptC block = none ∨
         R.matchOptD block = none ∨ R.matchAnswer block = none) :
    parseBlock R block = none := by
  unfold parseBlock
  cases hs : R.matchStem block with
  | none => rfl
  | some stem =>
    simp only
    cases hA : R.matchOptA block with
    | none => simp
    | some a =>
      cases hB : R.matchOptB block with
      | none => simp
      | some b =>
        cases hC : R.matchOptC block with
        | none => simp
        | some c =>
          cases hD : R.matchOptD block with
          | none => simp
          | some d =>
            cases hAns : R.matchAnswer block with
            | none => simp
            | some pr =>
              obtain ⟨letter, ansRaw⟩ := pr
              rcases h with h | h | h | h | h | h <;> simp_all

/-- C8: for every retry set fetched under the limit of 4 and every
generation response, generateMCQs returns at most 10 question records, each
record is the answer-stripped projection of a retry question or of a newly
parsed question, every newly parsed question has exactly 4 options and an
upper-cased answer letter among A, B, C, D (the hypothesis reflects the
A-D character class of the answer regex under the case-insensitive flag),
and a response block missing the stem, any of the four options, or the
answer match is dropped by the parser rather than returned. -/
theorem claim_C8_quizgen (R : RegexOps) (uuid : ℕ → String) (rand : ℕ → ℚ)
    (mistakeQuestions : List ParsedQuestion) (response : String)
    (hAns : ∀ b c t, R.matchAnswer b = some (c, t) →
      c.toUpper = 'A' ∨ c.toUpper = 'B' ∨ c.toUpper = 'C' ∨ c.toUpper = 'D')
    (hm : mistakeQuestions.length ≤ 4) :
    (generateMCQs R uuid rand mistakeQuestions response).length ≤ 10 ∧
    (∀ p ∈ generateMCQs R uuid rand mistakeQuestions response,
      ∃ q, (q ∈ mistakeQuestions ∨ q ∈ parseResponse R response) ∧
        p.question_text = q.question_text ∧ p.options = q.options ∧
        p.is_retry = q.is_retry) ∧
    (∀ q ∈ parseResponse R response, q.options.length = 4 ∧
      (q.correct_answer = 'A' ∨ q.correct_answer = 'B' ∨
       q.correct_answer = 'C' ∨ q.correct_answer = 'D')) ∧
    (∀ block, (R.matchStem block = none ∨ R.matchOptA block = none ∨
        R.matchOptB block = none ∨ R.matchOptC block = none ∨
        R.matchOptD block = none ∨ R.matchAnswer block = none) →
      parseBlock R block = none) := by
  refine ⟨?_, ?_, ?_, fun block h => parseBlock_none_of_missing R block h⟩
  · rw [generateMCQs, List.length_map, length_saveQuestions, length_shuffleArray,
      List.length_append, List.length_take]
    omega
  · intro p hp
    rw [generateMCQs, List.mem_map] at hp
    obtain ⟨s, hsMem, rfl⟩ := hp
    obtain ⟨q, hqMem, hqt, hqo, hqr⟩ := mem_saveQuestions hsMem
    have hqAll := mem_shuffleArray hqMem
    rw [List.mem_append] at hqAll
    refine ⟨q, ?_, ?_, ?_, ?_⟩
    · rcases hqAll with hq | hq
      · exact Or.inl hq
      · right
        have := List.mem_of_mem_take hq
        by_cases hcond : 0 < 10 - mistakeQuestions.length
        · rwa [if_pos hcond] at this
        · rw [if_neg hcond] at this
          exact absurd this (List.not_mem_nil q)
    · simpa [toPublic] using hqt
    · simpa [toPublic] using hqo
    · simpa [toPublic] using hqr
  · intro q hq
    rw [parseResponse, List.mem_filterMap] at hq
    obtain ⟨b, hb, hsome⟩ := hq
    obtain ⟨hlen, c, t, han, hcorr⟩ := parseBlock_shape hsome
    refine ⟨hlen, ?_⟩
    rw [hcorr]
    exact hAns b c t han

theorem claim_C8_quizgen_witness :
    ((∀ b c t, emptyRegexOps.matchAnswer b = some (c, t) →
        c.toUpper = 'A' ∨ c.toUpper = 'B' ∨ c.toUpper = 'C' ∨ c.toUpper = 'D') ∧
      ([] : List ParsedQuestion).length ≤ 4) ∧
    ((generateMCQs emptyRegexOps (fun _ => "") (fun _ => 0) [] "").length ≤ 10 ∧
     (∀ p ∈ generateMCQs emptyRegexOps (fun _ => "") (fun _ => 0) [] "",
       ∃ q, (q ∈ ([] : List ParsedQuestion) ∨ q ∈ parseResponse emptyRegexOps "") ∧
         p.question_text = q.question_text ∧ p.options = q.options ∧
         p.is_retry = q.is_retry) ∧
     (∀ q ∈ parseResponse emptyRegexOps "", q.options.length = 4 ∧
       (q.correct_answer = 'A' ∨ q.correct_answer = 'B' ∨
        q.correct_answer = 'C' ∨ q.correct_answer = 'D')) ∧
     (∀ block, (emptyRegexOps.matchStem block = none ∨
         emptyRegexOps.matchOptA block = none ∨
         emptyRegexOps.matchOptB block = none ∨
         emptyRegexOps.matchOptC block = none ∨
         emptyRegexOps.matchOptD block = none ∨
         emptyRegexOps.matchAnswer block = none) →
       parseBlock emptyRegexOps block = none)) :=
  ⟨⟨fun b c t h => absurd h (by simp [emptyRegexOps]), by simp⟩,
   claim_C8_quizgen emptyRegexOps (fun _ => "") (fun _ => 0) [] ""
     (fun b c t h => absurd h (by simp [emptyRegexOps])) (by simp)⟩

/-- C10: when both providers fail during a chat turn, the chat operation
raises the service-unavailable error and every session's stored message
history is unchanged; and whenever a response is obtained, the user message
followed by the assistant response is appended to the session's history (so
appending happens only after a provider response is successfully
obtained). -/
theorem claim_C10_chat_failure (histories : String → List ChatMsg)
    (message sessionId : String) (groqResult geminiResult : Option String) :
    (groqResult = none → geminiResult = none →
      chat histories message sessionId groqResult geminiResult
        = (histories,
           Except.error "AI service temporarily unavailable. Please try again later.")) ∧
    (∀ r, (chat histories message sessionId groqResult geminiResult).2 = Except.ok r →
      (chat histories message sessionId groqResult geminiResult).1 sessionId
        = histories sessionId ++
            [{ role := "user", content := message },
             { role := "assistant", content := r }]) := by
  constructor
  · intro hg hm
    subst hg
    subst hm
    rfl
  · have haddr : ∀ (h : String → List ChatMsg) (v : String),
        (addToHistory (addToHistory h sessionId "user" message)
            sessionId "assistant" v) sessionId
          = h sessionId ++
              [{ role := "user", content := message },
               { role := "assistant", content := v }] := by
      intro h v
      simp [addToHistory]
    intro r hr
    cases hgroq : groqResult with
    | some v =>
      unfold chat at hr ⊢
      simp only [hgroq] at hr ⊢
      have hv : v = r := by simpa using hr
      subst hv
      exact haddr histories v
    | none =>
      unfold chat at hr ⊢
      simp only [hgroq] at hr ⊢
      cases hgem : geminiResult with
      | some v =>
        simp only [hgem] at hr ⊢
        have hv : v = r := by simpa using hr
        subst hv
        exact haddr histories v
      | none =>
        simp only [hgem] at hr
        exact absurd hr (by simp)

theorem claim_C10_chat_failure_witness :
    (chat (fun _ => []) "hi" "s" none none
      = ((fun _ => []),
         Except.error "AI service temporarily unavailable. Please try again later.")) ∧
    ((chat (fun _ => ([] : List ChatMsg)) "hi" "s" (some "yo") none).1 "s"
      = (fun _ => ([] : List ChatMsg)) "s" ++
          [{ role := "user", content := "hi" },
           { role := "assistant", content := "yo" }]) :=
  ⟨(claim_C10_chat_failure (fun _ => []) "hi" "s" none none).1 rfl rfl,
   (claim_C10_chat_failure (fun _ => []) "hi" "s" (some "yo") none).2 "yo" rfl⟩
